import Mathlib

/-!
Verification of the electrode Brain module (src/electrode/brain/__init__.py).

The Brain class holds a networkx undirected graph, an ordered list of
neurons, an ordered list of synapse triples, and a `loaded` flag.  Its
methods are embedded here as pure functions returning the updated Brain
together with an optional raised exception (`Option Err`): Python
exceptions leave already-performed attribute assignments in place, so a
method that raises still returns the partially updated state, exactly as
the interpreter would leave the object.
-/

namespace Electrode

/-- A SegmentKey: an ordered pair (neuron identifier, port identifier),
both opaque strings, as used throughout the Brain API. -/
abbrev Key := String × String

/-- Edge attribute payload (a synapse weight or internal-connection
attribute).  The Brain code never inspects it, so a numeric stand-in is
faithful. -/
abbrev Attr := Int

/-- The exceptions the Brain code can raise.
`typeError` models Python `TypeError` (bad isinstance check in
`add_neuron`; `list.append` called with three positional arguments in
`add_synapse`; `nx.Graph.add_edge` called with a third positional
argument in `compile`).
`runtimeError` models the `RuntimeError("You cannot call add_neuron
after a call to compile.")` lifecycle guard — the spec's LifecycleError.
`valueError` models the exception `nx.compose_all` raises on an empty
graph list.
`notImplementedError` models `NotImplementedError` (`run`,
`__getitem__`, and the unreachable tail of `add_synapse`). -/
inductive Err where
  | typeError
  | runtimeError
  | valueError
  | notImplementedError
deriving DecidableEq

/-- An undirected graph in the style of `nx.Graph`: a node list in
insertion order and an edge list with one attribute slot per edge.
An edge {u, v} is stored once; lookup treats (u, v) and (v, u) alike. -/
structure Graph where
  nodes : List Key
  edges : List (Key × Key × Attr)
deriving DecidableEq

/-- `nx.Graph()`: the fresh empty graph. -/
def Graph.empty : Graph := ⟨[], []⟩

/-- Whether a stored edge joins the unordered pair {u, v}. -/
def edgeMatches (u v : Key) (e : Key × Key × Attr) : Bool :=
  decide ((e.1 = u ∧ e.2.1 = v) ∨ (e.1 = v ∧ e.2.1 = u))

/-- `nx.Graph.add_node`: appends the node unless already present. -/
def Graph.addNode (g : Graph) (k : Key) : Graph :=
  if k ∈ g.nodes then g else { g with nodes := g.nodes ++ [k] }

/-- `nx.Graph.add_edge u v` with attribute `a`: inserts the endpoints as
nodes if missing, then updates the attribute of the existing {u, v} edge
or appends a new edge. -/
def Graph.addEdge (g : Graph) (u v : Key) (a : Attr) : Graph :=
  let g1 := (g.addNode u).addNode v
  if g1.edges.any (edgeMatches u v) then
    { g1 with edges := g1.edges.map (fun e => if edgeMatches u v e then (e.1, e.2.1, a) else e) }
  else
    { g1 with edges := g1.edges ++ [(u, v, a)] }

/-- `nx.Graph.has_edge`. -/
def Graph.hasEdge (g : Graph) (u v : Key) : Bool :=
  g.edges.any (edgeMatches u v)

/-- `nx.Graph.degree` of a node: number of incident edges. -/
def Graph.degree (g : Graph) (k : Key) : Nat :=
  (g.edges.filter (fun e => decide (e.1 = k ∨ e.2.1 = k))).length

/-- Well-formedness of a graph: every edge endpoint is a node.  Every
graph produced by `nx.Graph` mutators satisfies this, and a Neuron's
internal subgraph has its edges between its own SegmentKeys. -/
def Graph.wfB (g : Graph) : Bool :=
  g.edges.all (fun e => decide (e.1 ∈ g.nodes ∧ e.2.1 ∈ g.nodes))

/-- `nx.compose G H`: node set and edge set unions; on a shared edge the
attribute of `H` wins.  Implemented as networkx does: add all of H's
nodes, then add each of H's edges. -/
def Graph.compose (G H : Graph) : Graph :=
  let g := H.nodes.foldl Graph.addNode G
  H.edges.foldl (fun acc e => acc.addEdge e.1 e.2.1 e.2.2) g

/-- `nx.compose_all`: left fold of `compose` over the list; raises on an
empty list. -/
def composeAll : List Graph → Except Err Graph
  | [] => .error .valueError
  | g :: gs => .ok (gs.foldl Graph.compose g)

/-- `Modelled from the spec:` the Neuron class is imported from
`electrode.neuron`, which is not under src/.  Per §3/§4.2 of the spec a
Neuron owns an internal subgraph whose nodes are its own SegmentKeys and
whose edges are its internal connections; `compile` consumes a neuron
directly as that graph (`nx.compose_all([neuron for neuron in
self._neurons])`).  A value passed to `add_neuron` either is such a
Neuron (carrying its subgraph) or is some other object failing the
`isinstance` check. -/
inductive PyObj where
  | neuronObj (g : Graph)
  | nonNeuron
deriving DecidableEq

/-- The Brain state: `time_resolution` in nanoseconds, the networkx
graph `_graph`, the `loaded` flag, the ordered neuron list `_neurons`,
and the ordered synapse list `_synapses` whose intended elements are
(source, sink, synapse) triples. -/
structure Brain where
  time_resolution : Nat
  graph : Graph
  loaded : Bool
  neurons : List Graph
  synapses : List (Key × Key × Attr)
deriving DecidableEq

/-- `Brain()` with default arguments.  `Modelled from the spec:` the
`timing` module is not under src/; per §6 `timing.ms` is the pure
conversion to integer nanoseconds, so `timing.ms(0.5) = 500000`. -/
def mkBrain : Brain :=
  { time_resolution := 500000
    graph := Graph.empty
    loaded := false
    neurons := []
    synapses := [] }

/-- Python `list.append` invoked with three positional arguments, as in
`self._synapses.append(source, sink, synapse)`: `append` takes exactly
one argument, so the call raises `TypeError` before any mutation. -/
def listAppend3 {α β γ δ : Type} (_xs : List α) (_a : β) (_b : γ) (_c : δ) :
    Except Err (List α) :=
  .error .typeError

/-- `nx.Graph.add_edge(u_of_edge, v_of_edge, **attr)` invoked with a
third positional argument, as in `self._graph.add_edge(synapse[0],
synapse[1], synapse[2])`: the signature takes only two positional
arguments, so the call raises `TypeError` before any mutation.  (This
call site is unreachable through the public API because `_synapses` is
always empty, see `Brain.add_synapse`.) -/
def addEdgeThreePositional (_g : Graph) (_u _v : Key) (_a : Attr) :
    Except Err Graph :=
  .error .typeError

/-- `Brain.add_neuron`: `isinstance` check first (TypeError), then the
lifecycle guard (RuntimeError when `loaded`), then append to
`_neurons`. -/
def Brain.add_neuron (b : Brain) (v : PyObj) : Brain × Option Err :=
  match v with
  | .nonNeuron => (b, some .typeError)
  | .neuronObj g =>
    if b.loaded then (b, some .runtimeError)
    else ({ b with neurons := b.neurons ++ [g] }, none)

/-- `Brain.add_synapse(synapse, source, sink)`: calls
`self._synapses.append(source, sink, synapse)` — which raises TypeError —
and would then raise NotImplementedError had the append succeeded. -/
def Brain.add_synapse (b : Brain) (synapse : Attr) (source sink : Key) :
    Brain × Option Err :=
  match listAppend3 b.synapses source sink synapse with
  | .error e => (b, some e)
  | .ok l => ({ b with synapses := l }, some .notImplementedError)

/-- The `for synapse in self._synapses` loop of `compile`: each
iteration calls `add_edge` with a third positional argument; the first
raised exception aborts the loop, keeping the graph built so far. -/
def addSynapseEdges (g : Graph) : List (Key × Key × Attr) → Graph × Option Err
  | [] => (g, none)
  | s :: ss =>
    match addEdgeThreePositional g s.1 s.2.1 s.2.2 with
    | .error e => (g, some e)
    | .ok g2 => addSynapseEdges g2 ss

/-- `Brain.compile(reduce)`: sets `loaded = True`, resets `_graph` to a
fresh empty graph, and — only when `reduce` is true — assigns
`nx.compose_all(self._neurons)` to `_graph` and then runs the synapse
loop.  An exception leaves the assignments already made in place. -/
def Brain.compile (b : Brain) (reduce : Bool) : Brain × Option Err :=
  let b1 : Brain := { b with loaded := true, graph := Graph.empty }
  if reduce then
    match composeAll b1.neurons with
    | .error e => (b1, some e)
    | .ok g =>
      let p := addSynapseEdges g b1.synapses
      ({ b1 with graph := p.1 }, p.2)
  else
    (b1, none)

/-- `Brain.run`: `raise NotImplementedError()`. -/
def Brain.run (_b : Brain) : Except Err Bool :=
  .error .notImplementedError

/-- Build a Brain by adding each graph of the list as a neuron, in
order, starting from a fresh Brain. -/
def buildBrain (gs : List Graph) : Brain :=
  gs.foldl (fun b g => (b.add_neuron (PyObj.neuronObj g)).1) mkBrain

/-- The graph `compile` computes, as a function of the neuron list, the
synapse list and the reduce flag only. -/
def compiledGraph (ns : List Graph) (ss : List (Key × Key × Attr)) (reduce : Bool) : Graph :=
  if reduce then
    match composeAll ns with
    | .error _ => Graph.empty
    | .ok g => (addSynapseEdges g ss).1
  else
    Graph.empty

/-- A single neuron whose internal subgraph is the linear chain
A–B–C–D of degree-2 interior nodes, used against the reduction claim. -/
def chainGraph : Graph :=
  ⟨[("n", "a"), ("n", "b"), ("n", "c"), ("n", "d")],
   [(("n", "a"), ("n", "b"), 1), (("n", "b"), ("n", "c"), 1), (("n", "c"), ("n", "d"), 1)]⟩

/-- A neuron with the single segment ("n1","p1"). -/
def neuronOne : Graph := ⟨[("n1", "p1")], []⟩

/-- A neuron with the single segment ("n2","p1"). -/
def neuronTwo : Graph := ⟨[("n2", "p1")], []⟩

/- ------------------------------------------------------------------ -/
/- Helper lemmas about the graph operations and the Brain methods.    -/
/- ------------------------------------------------------------------ -/

theorem addNode_nodes_mem (g : Graph) (k x : Key) :
    x ∈ (g.addNode k).nodes ↔ x ∈ g.nodes ∨ x = k := by
  unfold Graph.addNode
  split
  · rename_i h
    constructor
    · exact Or.inl
    · rintro (hx | rfl)
      · exact hx
      · exact h
  · simp [List.mem_append]

theorem foldl_addNode_nodes_mem (ks : List Key) (g : Graph) (x : Key) :
    x ∈ (ks.foldl Graph.addNode g).nodes ↔ x ∈ g.nodes ∨ x ∈ ks := by
  induction ks generalizing g with
  | nil => simp
  | cons k ks ih =>
    rw [List.foldl_cons, ih, addNode_nodes_mem]
    simp [or_assoc]

theorem addEdge_nodes (g : Graph) (u v : Key) (a : Attr) :
    (g.addEdge u v a).nodes = ((g.addNode u).addNode v).nodes := by
  unfold Graph.addEdge
  dsimp only
  split <;> rfl

theorem addEdge_nodes_mem (g : Graph) (u v : Key) (a : Attr) (x : Key) :
    x ∈ (g.addEdge u v a).nodes ↔ x ∈ g.nodes ∨ x = u ∨ x = v := by
  rw [addEdge_nodes, addNode_nodes_mem, addNode_nodes_mem, or_assoc]

theorem foldl_addEdge_nodes_mem (es : List (Key × Key × Attr)) (g : Graph) (x : Key) :
    x ∈ (es.foldl (fun acc e => acc.addEdge e.1 e.2.1 e.2.2) g).nodes ↔
      x ∈ g.nodes ∨ ∃ e ∈ es, x = e.1 ∨ x = e.2.1 := by
  induction es generalizing g with
  | nil => simp
  | cons e es ih =>
    rw [List.foldl_cons, ih, addEdge_nodes_mem]
    simp only [List.mem_cons]
    constructor
    · rintro ((h | h | h) | ⟨f, hf, h⟩)
      · exact Or.inl h
      · exact Or.inr ⟨e, Or.inl rfl, Or.inl h⟩
      · exact Or.inr ⟨e, Or.inl rfl, Or.inr h⟩
      · exact Or.inr ⟨f, Or.inr hf, h⟩
    · rintro (h | ⟨f, (rfl | hf), h⟩)
      · exact Or.inl (Or.inl h)
      · rcases h with h | h
        · exact Or.inl (Or.inr (Or.inl h))
        · exact Or.inl (Or.inr (Or.inr h))
      · exact Or.inr ⟨f, hf, h⟩

theorem compose_nodes_mem (G H : Graph) (x : Key) :
    x ∈ (G.compose H).nodes ↔
      x ∈ G.nodes ∨ x ∈ H.nodes ∨ ∃ e ∈ H.edges, x = e.1 ∨ x = e.2.1 := by
  unfold Graph.compose
  dsimp only
  rw [foldl_addEdge_nodes_mem, foldl_addNode_nodes_mem, or_assoc]

theorem compose_nodes_mem_of_wf (G H : Graph) (hw : H.wfB = true) (x : Key) :
    x ∈ (G.compose H).nodes ↔ x ∈ G.nodes ∨ x ∈ H.nodes := by
  rw [compose_nodes_mem]
  constructor
  · rintro (h | h | ⟨e, he, h⟩)
    · exact Or.inl h
    · exact Or.inr h
    · have hmem := List.all_eq_true.mp hw e he
      rw [decide_eq_true_eq] at hmem
      rcases h with rfl | rfl
      · exact Or.inr hmem.1
      · exact Or.inr hmem.2
  · rintro (h | h)
    · exact Or.inl h
    · exact Or.inr (Or.inl h)

theorem foldl_compose_nodes_mem (hs : List Graph) (G : Graph)
    (hw : ∀ h ∈ hs, h.wfB = true) (x : Key) :
    x ∈ (hs.foldl Graph.compose G).nodes ↔
      x ∈ G.nodes ∨ ∃ h ∈ hs, x ∈ h.nodes := by
  induction hs generalizing G with
  | nil => simp
  | cons h hs ih =>
    rw [List.foldl_cons,
      ih _ (fun g hg => hw g (List.mem_cons_of_mem _ hg)),
      compose_nodes_mem_of_wf G h (hw h (List.mem_cons_self _ _))]
    simp only [List.mem_cons]
    constructor
    · rintro ((hx | hx) | ⟨g, hg, hx⟩)
      · exact Or.inl hx
      · exact Or.inr ⟨h, Or.inl rfl, hx⟩
      · exact Or.inr ⟨g, Or.inr hg, hx⟩
    · rintro (hx | ⟨g, (rfl | hg), hx⟩)
      · exact Or.inl (Or.inl hx)
      · exact Or.inl (Or.inr hx)
      · exact Or.inr ⟨g, hg, hx⟩

theorem add_neuron_not_loaded (b : Brain) (g : Graph) (hb : b.loaded = false) :
    b.add_neuron (PyObj.neuronObj g) = ({ b with neurons := b.neurons ++ [g] }, none) := by
  unfold Brain.add_neuron
  rw [hb]
  rfl

theorem foldl_add_neuron (gs : List Graph) (b : Brain) (hb : b.loaded = false) :
    gs.foldl (fun b g => (b.add_neuron (PyObj.neuronObj g)).1) b =
      { b with neurons := b.neurons ++ gs } := by
  induction gs generalizing b with
  | nil => simp
  | cons g gs ih =>
    rw [List.foldl_cons, add_neuron_not_loaded b g hb]
    rw [ih { b with neurons := b.neurons ++ [g] } hb]
    simp

theorem buildBrain_eq (gs : List Graph) :
    buildBrain gs = { mkBrain with neurons := gs } := by
  unfold buildBrain
  rw [foldl_add_neuron gs mkBrain rfl]
  rfl

theorem compile_graph_eq (b : Brain) (r : Bool) :
    (b.compile r).1.graph = compiledGraph b.neurons b.synapses r := by
  cases r with
  | false => rfl
  | true =>
    unfold Brain.compile compiledGraph
    dsimp only
    cases h : composeAll b.neurons with
    | error e => simp [h]
    | ok g => simp [h]

theorem compile_neurons (b : Brain) (r : Bool) :
    (b.compile r).1.neurons = b.neurons := by
  cases r with
  | false => rfl
  | true =>
    unfold Brain.compile
    dsimp only
    cases h : composeAll b.neurons <;> simp [h]

theorem compile_synapses (b : Brain) (r : Bool) :
    (b.compile r).1.synapses = b.synapses := by
  cases r with
  | false => rfl
  | true =>
    unfold Brain.compile
    dsimp only
    cases h : composeAll b.neurons <;> simp [h]

theorem compile_loaded (b : Brain) (r : Bool) :
    (b.compile r).1.loaded = true := by
  cases r with
  | false => rfl
  | true =>
    unfold Brain.compile
    dsimp only
    cases h : composeAll b.neurons <;> simp [h]

theorem add_synapse_eq (b : Brain) (w : Attr) (s t : Key) :
    b.add_synapse w s t = (b, some Err.typeError) := rfl

/- ------------------------------------------------------------------ -/
/- Claim theorems.                                                    -/
/- ------------------------------------------------------------------ -/

/-- C1 counterexample: on a compiled Brain, `add_synapse` does not fail
with the lifecycle RuntimeError (the code's LifecycleError): it fails
with the TypeError raised by `list.append` called with three arguments,
so the claim that any post-compile `add_synapse` fails with a
LifecycleError is false at this concrete input. -/
theorem C1_counterexample :
    ((mkBrain.compile false).1.add_synapse 1 ("n1", "p1") ("n2", "p1")).2 =
      some Err.typeError ∧
    Err.typeError ≠ Err.runtimeError :=
  ⟨rfl, by decide⟩

/-- C1 (amended): after `compile`, `add_neuron` called with a Neuron
fails with the lifecycle RuntimeError and `add_synapse` fails with a
TypeError (from its three-argument `append`, not a lifecycle check);
both leave the Brain — in particular its neuron and synapse
sequences — unchanged. -/
theorem C1_post_compile_mutation_rejected :
    ∀ (b : Brain) (r : Bool) (g : Graph) (w : Attr) (s t : Key),
      (b.compile r).1.add_neuron (PyObj.neuronObj g) =
        ((b.compile r).1, some Err.runtimeError) ∧
      (b.compile r).1.add_synapse w s t =
        ((b.compile r).1, some Err.typeError) := by
  intro b r g w s t
  constructor
  · unfold Brain.add_neuron
    rw [compile_loaded b r]
    simp
  · exact add_synapse_eq _ w s t

/-- C2: evaluation showing the code performs no reduction pass.  A Brain
holding one neuron whose subgraph is the chain A–B–C–D, compiled with
reduce=true, keeps the chain verbatim: the degree-2 interior nodes
("n","b") and ("n","c") survive and no collapsed edge A–D exists,
contradicting the claimed collapse of degree-2 chains. -/
theorem C2_no_reduction_pass :
    ((buildBrain [chainGraph]).compile true).1.graph = chainGraph ∧
    ("n", "b") ∈ ((buildBrain [chainGraph]).compile true).1.graph.nodes ∧
    ((buildBrain [chainGraph]).compile true).1.graph.degree ("n", "b") = 2 ∧
    ((buildBrain [chainGraph]).compile true).1.graph.degree ("n", "c") = 2 ∧
    ((buildBrain [chainGraph]).compile true).1.graph.hasEdge ("n", "a") ("n", "d") = false := by
  decide

/-- C3: evaluation showing `add_synapse` on a fresh Building Brain does
not append the (source, sink, synapse) triple: the three-argument
`list.append` raises TypeError and the Brain is returned unchanged,
contradicting the claimed success. -/
theorem C3_add_synapse_never_appends :
    mkBrain.add_synapse 1 ("n1", "p1") ("n2", "p1") = (mkBrain, some Err.typeError) :=
  rfl

/-- C4: for every nonempty list of well-formed neuron subgraphs with
pairwise disjoint SegmentKey sets, added to a fresh Brain and compiled
with reduce=true, the node set of the resulting graph is exactly the
union of the neurons' SegmentKeys. -/
theorem C4_compile_nodes_eq_union :
    ∀ (gs : List Graph), gs ≠ [] →
      (∀ g ∈ gs, g.wfB = true) →
      List.Pairwise (fun g h => ∀ k ∈ g.nodes, k ∉ h.nodes) gs →
      ∀ k : Key,
        k ∈ ((buildBrain gs).compile true).1.graph.nodes ↔ ∃ g ∈ gs, k ∈ g.nodes := by
  intro gs hne hwf _hdisj k
  obtain ⟨g, gs2, rfl⟩ := List.exists_cons_of_ne_nil hne
  rw [compile_graph_eq, buildBrain_eq]
  have hproj : ({ mkBrain with neurons := g :: gs2 } : Brain).neurons = g :: gs2 := rfl
  have hproj2 : ({ mkBrain with neurons := g :: gs2 } : Brain).synapses = [] := rfl
  rw [hproj, hproj2]
  have hred : compiledGraph (g :: gs2) [] true = gs2.foldl Graph.compose g := rfl
  rw [hred]
  rw [foldl_compose_nodes_mem gs2 g (fun h hh => hwf h (List.mem_cons_of_mem _ hh)) k]
  constructor
  · rintro (h | ⟨h2, hh, hx⟩)
    · exact ⟨g, List.mem_cons_self _ _, h⟩
    · exact ⟨h2, List.mem_cons_of_mem _ hh, hx⟩
  · rintro ⟨h2, hm, hx⟩
    rcases List.mem_cons.mp hm with rfl | hm2
    · exact Or.inl hx
    · exact Or.inr ⟨h2, hm2, hx⟩

/-- C4 witness: the theorem applied to the concrete two-neuron Brain of
the spec's scenario, at the key ("n1","p1"). -/
theorem C4_witness :
    ([neuronOne, neuronTwo] ≠ ([] : List Graph)) ∧
    (∀ g ∈ [neuronOne, neuronTwo], g.wfB = true) ∧
    List.Pairwise (fun g h => ∀ k ∈ g.nodes, k ∉ h.nodes) [neuronOne, neuronTwo] ∧
    (("n1", "p1") ∈ ((buildBrain [neuronOne, neuronTwo]).compile true).1.graph.nodes ↔
      ∃ g ∈ [neuronOne, neuronTwo], ("n1", "p1") ∈ g.nodes) :=
  ⟨by decide, by decide, by decide,
    C4_compile_nodes_eq_union [neuronOne, neuronTwo] (by decide) (by decide) (by decide)
      ("n1", "p1")⟩

/-- C5: evaluation showing no synapse edge ever reaches the compiled
graph.  Adding the synapse (("n1","p1"), ("n2","p1"), 1) to a Building
Brain with the two corresponding neurons raises TypeError and records
nothing, so the graph compiled with reduce=true has an empty edge list
and no edge connecting source and sink, contradicting the claim. -/
theorem C5_synapse_edge_missing :
    ((buildBrain [neuronOne, neuronTwo]).add_synapse 1 ("n1", "p1") ("n2", "p1")).2 =
      some Err.typeError ∧
    ((buildBrain [neuronOne, neuronTwo]).add_synapse 1 ("n1", "p1") ("n2", "p1")).1.synapses = [] ∧
    ((((buildBrain [neuronOne, neuronTwo]).add_synapse 1 ("n1", "p1") ("n2", "p1")).1.compile true).2 = none) ∧
    ((((buildBrain [neuronOne, neuronTwo]).add_synapse 1 ("n1", "p1") ("n2", "p1")).1.compile true).1.graph.hasEdge ("n1", "p1") ("n2", "p1") = false) ∧
    ((((buildBrain [neuronOne, neuronTwo]).add_synapse 1 ("n1", "p1") ("n2", "p1")).1.compile true).1.graph.edges = []) := by
  decide

/-- C6: for every Brain, `compile` with reduce=false discards the
previous graph and leaves a fresh empty graph — no neuron subgraph is
merged and no synapse edge is added — while setting the loaded flag. -/
theorem C6_nonreduce_leaves_empty_graph :
    ∀ b : Brain,
      b.compile false = ({ b with loaded := true, graph := Graph.empty }, none) :=
  fun _ => rfl

/-- C7: evaluation showing `run` never returns a per-step success
indicator: on the compiled two-neuron Brain it raises
NotImplementedError, contradicting the claim that it returns True for
at least one step without raising. -/
theorem C7_run_raises :
    ((buildBrain [neuronOne, neuronTwo]).compile true).1.run =
      Except.error Err.notImplementedError :=
  rfl

/-- C8: `compile` is deterministic in the neuron and synapse collections
and the reduce flag — two Brains with the same collections compile to
the same graph whatever their other fields (so the graph is rebuilt
wholesale, never derived from the previous graph) — and compiling twice
with the same flag yields an identical graph. -/
theorem C8_compile_deterministic_rebuild :
    ∀ (ns : List Graph) (ss : List (Key × Key × Attr)) (r : Bool)
      (t1 t2 : Nat) (g1 g2 : Graph) (l1 l2 : Bool) (b : Brain),
      (Brain.compile ⟨t1, g1, l1, ns, ss⟩ r).1.graph =
        (Brain.compile ⟨t2, g2, l2, ns, ss⟩ r).1.graph ∧
      ((b.compile r).1.compile r).1.graph = (b.compile r).1.graph := by
  intro ns ss r t1 t2 g1 g2 l1 l2 b
  constructor
  · rw [compile_graph_eq, compile_graph_eq]
  · rw [compile_graph_eq, compile_graph_eq, compile_neurons, compile_synapses]

/-- C9: in every Brain state and for all arguments, `add_synapse` raises
(TypeError from the three-argument `append`) before the synapse sequence
is modified, so the Brain — in particular its synapse sequence — is
returned exactly unchanged. -/
theorem C9_add_synapse_never_mutates :
    ∀ (b : Brain) (w : Attr) (s t : Key),
      b.add_synapse w s t = (b, some Err.typeError) :=
  fun b w s t => add_synapse_eq b w s t

/-- C10: `compile` sets the loaded flag before any graph construction,
so even when it raises — as with reduce=true on an empty neuron
sequence, where `compose_all` raises on the empty list — the Brain is
left loaded and a later `add_neuron` is rejected with the lifecycle
RuntimeError, leaving the neuron sequence unchanged. -/
theorem C10_loaded_before_graph_work :
    ∀ (b : Brain) (g : Graph),
      (b.compile true).1.loaded = true ∧
      (b.neurons = [] →
        (b.compile true).2 = some Err.valueError ∧
        ((b.compile true).1.add_neuron (PyObj.neuronObj g)).2 = some Err.runtimeError ∧
        ((b.compile true).1.add_neuron (PyObj.neuronObj g)).1.neurons = b.neurons) := by
  intro b g
  refine ⟨compile_loaded b true, fun hn => ?_⟩
  have hc : b.compile true =
      ({ b with loaded := true, graph := Graph.empty }, some Err.valueError) := by
    unfold Brain.compile
    dsimp only
    rw [show ({ b with loaded := true, graph := Graph.empty } : Brain).neurons = b.neurons from rfl]
    rw [hn]
    rfl
  rw [hc]
  exact ⟨rfl, rfl, rfl⟩

/-- C10 witness: the theorem applied to the fresh Brain, whose neuron
sequence is empty. -/
theorem C10_witness :
    mkBrain.neurons = [] ∧
    (mkBrain.compile true).1.loaded = true ∧
    ((mkBrain.compile true).2 = some Err.valueError ∧
      ((mkBrain.compile true).1.add_neuron (PyObj.neuronObj neuronOne)).2 =
        some Err.runtimeError ∧
      ((mkBrain.compile true).1.add_neuron (PyObj.neuronObj neuronOne)).1.neurons =
        mkBrain.neurons) :=
  ⟨rfl, (C10_loaded_before_graph_work mkBrain neuronOne).1,
    (C10_loaded_before_graph_work mkBrain neuronOne).2 rfl⟩

end Electrode
